import Mathlib

/-!
Verification of the tabular data-quality and preparation pipeline of
`MLOps_Episode_3_Data_Preparation.ipynb` (repository `sd031/mlops-series`).

The notebook's executable content builds a five-row table with quality
issues and runs validation (null counts, outlier filtering, duplicate
detection) and preparation (duplicate removal, median fill, min-max
scaling, train/test split) over it.  The generic operations themselves
live in pandas / scikit-learn, outside this repository; following their
specification they are modelled here as pure functions over an explicit
record data model, and the notebook's concrete dataset is embedded
verbatim so that the concrete runs can be evaluated.
-/

namespace Pipeline

/-- Field value of a record: integer, rational (standing for the
floating-point numbers the table holds), text, or the explicit absent
marker (pandas `None` / `NaN`). -/
inductive Value : Type where
  | int (i : ℤ)
  | real (q : ℚ)
  | text (s : String)
  | absent
deriving DecidableEq, Repr

/-- Record: an ordered mapping from field name to value, as an
association list. -/
abbrev Record : Type := List (String × Value)

/-- Numeric view of a value: integers and rationals are numeric,
text and the absent marker are not. -/
def Value.asNum? : Value → Option ℚ
  | .int i => some (i : ℚ)
  | .real q => some q
  | _ => none

/-- Value of field `f` in record `r` (first binding wins). -/
def getField (f : String) : Record → Option Value
  | [] => none
  | (g, v) :: r => if g = f then some v else getField f r

/-- Record `r` with the first binding of field `f` replaced by `v`
(unchanged if `f` is not bound). -/
def setField (f : String) (v : Value) : Record → Record
  | [] => []
  | (g, w) :: r => if g = f then (g, v) :: r else (g, w) :: setField f v r

/-- Field names of a record, in order. -/
def schemaOf (r : Record) : List String := r.map Prod.fst

/-- Present numeric values of field `f` across the recordset, in record
order: absent markers and non-numeric values are skipped. -/
def presentNums (R : List Record) (f : String) : List ℚ :=
  R.filterMap (fun r => (getField f r).bind Value.asNum?)

/-- Count of records whose field `f` holds the absent marker
(the notebook's `isnull().sum()` for one column). -/
def absentCount (R : List Record) (f : String) : Nat :=
  (R.filter (fun r => decide (getField f r = some Value.absent))).length

/-- Indices of records whose numeric value at field `f` satisfies the
caller-supplied outlier predicate (the notebook's
`data[(data.age > 100) | (data.age < 0)]` filter).  A record whose value
at `f` is absent or non-numeric is never flagged. -/
def outlierIndices (R : List Record) (f : String) (pred : ℚ → Bool) : List Nat :=
  (List.range R.length).filter (fun i =>
    match R.get? i with
    | some r =>
      match (getField f r).bind Value.asNum? with
      | some v => pred v
      | none => false
    | none => false)

/-- Left-to-right scan keeping every element not seen before; `seen`
accumulates the values already emitted. -/
def dedupAux {α : Type} [DecidableEq α] (seen : List α) : List α → List α
  | [] => []
  | x :: xs => if x ∈ seen then dedupAux seen xs else x :: dedupAux (x :: seen) xs

/-- Modelled from the spec: `deduplicate` (the notebook's
`drop_duplicates`, whose body lives in pandas, outside this repository):
remove every record that is full-field equal to an earlier one, keeping
first occurrences in order. -/
def deduplicate {α : Type} [DecidableEq α] (l : List α) : List α :=
  dedupAux [] l

/-- Groups of indices of full-field-equal records, one group per distinct
record value occurring at least twice, in first-seen order (the
notebook's `duplicated(keep=False)` view). -/
def duplicateGroups (R : List Record) : List (List Nat) :=
  ((deduplicate R).map (fun r =>
    (List.range R.length).filter (fun i => decide (R.get? i = some r)))).filter
    (fun g => decide (2 ≤ g.length))

/-- Error taxonomy of the pipeline. -/
inductive PipeError : Type where
  | schemaMismatch
  | emptyField
  | unsupportedStrategy
  | degenerateRange
  | invalidFraction
  | insufficientData
deriving DecidableEq, Repr

/-- Validation report: per-field absent counts, outlier-flagged record
indices, duplicate index groups. -/
structure ValidationReport : Type where
  absent : String → Nat
  outliers : List Nat
  duplicates : List (List Nat)

/-- Modelled from the spec: `validate` (the notebook's validation cell,
whose individual checks live in pandas): fails with `schemaMismatch`
when the records do not share identical field names, otherwise reports
absent counts, outlier indices for the caller-supplied predicate over
field `f`, and duplicate groups.  Pure, no side effects. -/
def validate (R : List Record) (f : String) (pred : ℚ → Bool) :
    Except PipeError ValidationReport :=
  match R with
  | [] => .ok { absent := fun _ => 0, outliers := [], duplicates := [] }
  | r0 :: rs =>
    if rs.all (fun r => decide (schemaOf r = schemaOf r0)) then
      .ok { absent := fun g => absentCount R g
            outliers := outlierIndices R f pred
            duplicates := duplicateGroups R }
    else .error .schemaMismatch

/-- The notebook's `data_with_issues` table: five records, `user_id`
1,2,3,4,4, one absent email, one absent age, the two Emily Davis rows
fully identical with age 120.  Ages are rationals since pandas holds the
column as float64 once it contains a missing value. -/
def exampleData : List Record :=
  [ [("user_id", .int 1), ("name", .text "John Doe"),
     ("email", .text "john.doe@example.com"), ("age", .real 28)],
    [("user_id", .int 2), ("name", .text "Jane Smith"),
     ("email", .text "jane.smith@example.com"), ("age", .absent)],
    [("user_id", .int 3), ("name", .text "Sam Johnson"),
     ("email", .absent), ("age", .real 22)],
    [("user_id", .int 4), ("name", .text "Emily Davis"),
     ("email", .text "emily.davis@example.com"), ("age", .real 120)],
    [("user_id", .int 4), ("name", .text "Emily Davis"),
     ("email", .text "emily.davis@example.com"), ("age", .real 120)] ]

/-- The outlier predicate of the notebook: `(age > 100) | (age < 0)`. -/
def agePred (q : ℚ) : Bool := decide (100 < q) || decide (q < 0)

/-- Insert a rational into a sorted list, keeping it sorted. -/
def insertQ (q : ℚ) : List ℚ → List ℚ
  | [] => [q]
  | x :: xs => if q ≤ x then q :: x :: xs else x :: insertQ q xs

/-- Insertion sort on rationals (ascending). -/
def sortQ : List ℚ → List ℚ
  | [] => []
  | x :: xs => insertQ x (sortQ xs)

/-- Median of a list of rationals: middle element of the sorted list,
average of the two central elements for even lengths. -/
def median (l : List ℚ) : ℚ :=
  let s := sortQ l
  if s.length % 2 = 1 then s.getD (s.length / 2) 0
  else (s.getD (s.length / 2 - 1) 0 + s.getD (s.length / 2) 0) / 2

/-- Modelled from the spec: `fillMissing` with the median strategy (the
notebook's `fillna(median())`, whose body lives in pandas, outside this
repository): fails with `emptyField` when the field has no present
numeric value, otherwise returns a new recordset in which every absent
entry of field `f` is replaced by the median of the present values. -/
def fillMissing (R : List Record) (f : String) : Except PipeError (List Record) :=
  let ps := presentNums R f
  if ps.isEmpty then .error .emptyField
  else .ok (R.map (fun r =>
    if getField f r = some Value.absent then setField f (.real (median ps)) r else r))

/-- Fitted min-max scaler parameters. -/
structure ScalerState : Type where
  min : ℚ
  max : ℚ
deriving DecidableEq, Repr

/-- Minimum of a nonempty list of rationals. -/
def listMin? : List ℚ → Option ℚ
  | [] => none
  | x :: xs => some (xs.foldl min x)

/-- Maximum of a nonempty list of rationals. -/
def listMax? : List ℚ → Option ℚ
  | [] => none
  | x :: xs => some (xs.foldl max x)

/-- Add the derived `<f>_scaled` field holding `(v - mn) / (mx - mn)` to a
record whose field `f` holds numeric `v`; a record with no numeric value
at `f` is returned unchanged. -/
def scaleRecord (f : String) (mn mx : ℚ) (r : Record) : Record :=
  match (getField f r).bind Value.asNum? with
  | some v => (f ++ "_scaled", .real ((v - mn) / (mx - mn))) :: r
  | none => r

/-- Modelled from the spec: min-max `scale` (the notebook's
`MinMaxScaler.fit_transform`, whose body lives in scikit-learn, outside
this repository): fails with `degenerateRange` when the present values
of field `f` have equal minimum and maximum (or none exist), otherwise
returns a new recordset with the derived scaled field added together
with the fitted scaler state. -/
def scale (R : List Record) (f : String) :
    Except PipeError (List Record × ScalerState) :=
  match listMin? (presentNums R f), listMax? (presentNums R f) with
  | some mn, some mx =>
    if mn = mx then .error .degenerateRange
    else .ok (R.map (scaleRecord f mn mx), ⟨mn, mx⟩)
  | _, _ => .error .degenerateRange

/-- Linear congruential step driving the seeded shuffle. -/
def lcgNext (s : Nat) : Nat := (1664525 * s + 1013904223) % 4294967296

/-- Fuelled Fisher-Yates-style shuffle: repeatedly move the element at
position `s % length` to the front and recurse on the rest with the next
seed.  `fuel` bounds the recursion; callers pass the list length. -/
def shuffleAux {α : Type} [DecidableEq α] : Nat → Nat → List α → List α
  | 0, _, l => l
  | _ + 1, _, [] => []
  | n + 1, s, x :: xs =>
    let a := (x :: xs).get ⟨s % (x :: xs).length, Nat.mod_lt _ (Nat.succ_pos _)⟩
    a :: shuffleAux n (lcgNext s) ((x :: xs).erase a)

/-- Deterministic pseudo-random permutation of a list, seeded by `s`. -/
def seededShuffle {α : Type} [DecidableEq α] (s : Nat) (l : List α) : List α :=
  shuffleAux l.length s l

/-- Round a rational to the nearest integer, halves up. -/
def roundRat (q : ℚ) : ℤ := ⌊q + 1 / 2⌋

/-- Modelled from the spec: `split` (the notebook's `train_test_split`,
whose body lives in scikit-learn, outside this repository): fails with
`insufficientData` when the recordset has fewer than 2 records and with
`invalidFraction` when the fraction is outside the open interval (0, 1);
otherwise shuffles the recordset by a permutation determined by the
seed and returns `(train, test)` where `test` is the first
`round(t * N)` records of the shuffled list and `train` the rest. -/
def split (R : List Record) (t : ℚ) (seed : Nat) :
    Except PipeError (List Record × List Record) :=
  if R.length < 2 then .error .insufficientData
  else if t ≤ 0 ∨ 1 ≤ t then .error .invalidFraction
  else
    let sh := seededShuffle seed R
    let k := (roundRat (t * R.length)).toNat
    .ok (sh.drop k, sh.take k)

/-- The deduplicated table: `drop_duplicates` keeps the first Emily
Davis row and drops the second, yielding 4 records. -/
def exampleCleaned : List Record :=
  [ [("user_id", .int 1), ("name", .text "John Doe"),
     ("email", .text "john.doe@example.com"), ("age", .real 28)],
    [("user_id", .int 2), ("name", .text "Jane Smith"),
     ("email", .text "jane.smith@example.com"), ("age", .absent)],
    [("user_id", .int 3), ("name", .text "Sam Johnson"),
     ("email", .absent), ("age", .real 22)],
    [("user_id", .int 4), ("name", .text "Emily Davis"),
     ("email", .text "emily.davis@example.com"), ("age", .real 120)] ]

/-- The table after median fill: the absent age of the Jane Smith row is
replaced by 28, the median of the present ages 28, 22, 120. -/
def exampleFilled : List Record :=
  [ [("user_id", .int 1), ("name", .text "John Doe"),
     ("email", .text "john.doe@example.com"), ("age", .real 28)],
    [("user_id", .int 2), ("name", .text "Jane Smith"),
     ("email", .text "jane.smith@example.com"), ("age", .real 28)],
    [("user_id", .int 3), ("name", .text "Sam Johnson"),
     ("email", .absent), ("age", .real 22)],
    [("user_id", .int 4), ("name", .text "Emily Davis"),
     ("email", .text "emily.davis@example.com"), ("age", .real 120)] ]

section DedupLemmas

variable {α : Type} [DecidableEq α]

theorem mem_dedupAux {x : α} : ∀ (l seen : List α),
    x ∈ dedupAux seen l ↔ x ∈ l ∧ x ∉ seen := by
  intro l
  induction l with
  | nil => intro seen; simp [dedupAux]
  | cons a l ih =>
    intro seen
    by_cases ha : a ∈ seen
    · simp only [dedupAux, if_pos ha, ih, List.mem_cons]
      constructor
      · rintro ⟨hx, hs⟩; exact ⟨Or.inr hx, hs⟩
      · rintro ⟨hx | hx, hs⟩
        · exact absurd ha (hx ▸ hs)
        · exact ⟨hx, hs⟩
    · simp only [dedupAux, if_neg ha, List.mem_cons, ih]
      by_cases hxa : x = a
      · subst hxa; simp [ha]
      · simp [hxa]

theorem dedupAux_sublist : ∀ (l seen : List α), (dedupAux seen l).Sublist l := by
  intro l
  induction l with
  | nil => intro seen; simp [dedupAux]
  | cons a l ih =>
    intro seen
    by_cases ha : a ∈ seen
    · simpa [dedupAux, if_pos ha] using (ih seen).trans (List.sublist_cons_self a l)
    · simpa [dedupAux, if_neg ha] using (ih (a :: seen)).cons₂ a

theorem nodup_dedupAux : ∀ (l seen : List α), (dedupAux seen l).Nodup := by
  intro l
  induction l with
  | nil => intro seen; simp [dedupAux]
  | cons a l ih =>
    intro seen
    by_cases ha : a ∈ seen
    · simpa [dedupAux, if_pos ha] using ih seen
    · simp only [dedupAux, if_neg ha, List.nodup_cons]
      refine ⟨fun hmem => ?_, ih (a :: seen)⟩
      exact ((mem_dedupAux l (a :: seen)).mp hmem).2 (List.mem_cons_self a seen)

theorem dedupAux_congr : ∀ (l s₁ s₂ : List α), (∀ a, a ∈ s₁ ↔ a ∈ s₂) →
    dedupAux s₁ l = dedupAux s₂ l := by
  intro l
  induction l with
  | nil => intro s₁ s₂ _; rfl
  | cons a l ih =>
    intro s₁ s₂ h
    by_cases ha : a ∈ s₁
    · rw [dedupAux, dedupAux, if_pos ha, if_pos ((h a).mp ha), ih s₁ s₂ h]
    · rw [dedupAux, dedupAux, if_neg ha, if_neg (fun hc => ha ((h a).mpr hc))]
      refine congrArg (a :: ·) (ih _ _ fun b => ?_)
      simp only [List.mem_cons, h b]

theorem dedupAux_cons_seen {y : α} : ∀ (l seen : List α),
    dedupAux (y :: seen) l = dedupAux seen (l.filter (fun a => decide (a ≠ y))) := by
  intro l
  induction l with
  | nil => intro seen; rfl
  | cons a l ih =>
    intro seen
    by_cases hay : a = y
    · subst hay
      have : a ∈ a :: seen := List.mem_cons_self a seen
      rw [dedupAux, if_pos this, List.filter_cons_of_neg (by simp), ih seen]
    · rw [List.filter_cons_of_pos (by simpa using hay)]
      by_cases ha : a ∈ seen
      · rw [dedupAux, if_pos (List.mem_cons_of_mem y ha), dedupAux, if_pos ha, ih seen]
      · have hnot : a ∉ y :: seen := by
          simp only [List.mem_cons]
          rintro (h | h)
          · exact hay h
          · exact ha h
        rw [dedupAux, if_neg hnot, dedupAux, if_neg ha]
        refine congrArg (a :: ·) ?_
        rw [dedupAux_congr l (a :: y :: seen) (y :: a :: seen)
          (by intro b; simp only [List.mem_cons]; tauto), ih (a :: seen)]

theorem deduplicate_cons (x : α) (xs : List α) :
    deduplicate (x :: xs) = x :: deduplicate (xs.filter (fun a => decide (a ≠ x))) := by
  unfold deduplicate
  rw [dedupAux, if_neg (List.not_mem_nil x)]
  exact congrArg (x :: ·) (dedupAux_cons_seen xs [])

theorem dedupAux_eq_self : ∀ (l seen : List α), l.Nodup → (∀ x ∈ l, x ∉ seen) →
    dedupAux seen l = l := by
  intro l
  induction l with
  | nil => intro seen _ _; rfl
  | cons a l ih =>
    intro seen hnd hdisj
    rw [dedupAux, if_neg (hdisj a (List.mem_cons_self a l))]
    refine congrArg (a :: ·) (ih (a :: seen) (List.Nodup.of_cons hnd) ?_)
    intro x hx
    simp only [List.mem_cons]
    rintro (h | h)
    · exact (List.nodup_cons.mp hnd).1 (h ▸ hx)
    · exact hdisj x (List.mem_cons_of_mem a hx) h

end DedupLemmas

theorem shuffleAux_perm {α : Type} [DecidableEq α] :
    ∀ (n s : Nat) (l : List α), (shuffleAux n s l).Perm l := by
  intro n
  induction n with
  | zero => intro s l; exact List.Perm.refl l
  | succ n ih =>
    intro s l
    match l with
    | [] => exact List.Perm.refl []
    | x :: xs =>
      simp only [shuffleAux]
      have hmem : (x :: xs).get ⟨s % (x :: xs).length, Nat.mod_lt _ (Nat.succ_pos _)⟩ ∈
          x :: xs := List.get_mem _ _ _
      exact ((ih (lcgNext s) _).cons _).trans (List.perm_cons_erase hmem).symm

theorem seededShuffle_perm {α : Type} [DecidableEq α] (s : Nat) (l : List α) :
    (seededShuffle s l).Perm l :=
  shuffleAux_perm l.length s l

theorem foldl_min_le_init : ∀ (xs : List ℚ) (x : ℚ), xs.foldl min x ≤ x := by
  intro xs
  induction xs with
  | nil => intro x; exact le_refl x
  | cons a xs ih =>
    intro x
    exact le_trans (ih (min x a)) (min_le_left x a)

theorem foldl_min_le_mem : ∀ (xs : List ℚ) (x y : ℚ), y ∈ xs → xs.foldl min x ≤ y := by
  intro xs
  induction xs with
  | nil => intro x y h; cases h
  | cons a xs ih =>
    intro x y h
    rcases List.mem_cons.mp h with h | h
    · subst h
      exact le_trans (foldl_min_le_init xs (min x y)) (min_le_right x y)
    · exact ih (min x a) y h

theorem listMin?_le {l : List ℚ} {m : ℚ} (h : listMin? l = some m) :
    ∀ x ∈ l, m ≤ x := by
  match l with
  | [] => cases h
  | a :: xs =>
    intro x hx
    have hm : m = xs.foldl min a := by
      simpa [listMin?] using h.symm
    rcases List.mem_cons.mp hx with hx | hx
    · exact hm ▸ hx ▸ foldl_min_le_init xs a
    · exact hm ▸ foldl_min_le_mem xs a x hx

theorem le_foldl_max_init : ∀ (xs : List ℚ) (x : ℚ), x ≤ xs.foldl max x := by
  intro xs
  induction xs with
  | nil => intro x; exact le_refl x
  | cons a xs ih =>
    intro x
    exact le_trans (le_max_left x a) (ih (max x a))

theorem le_foldl_max_mem : ∀ (xs : List ℚ) (x y : ℚ), y ∈ xs → y ≤ xs.foldl max x := by
  intro xs
  induction xs with
  | nil => intro x y h; cases h
  | cons a xs ih =>
    intro x y h
    rcases List.mem_cons.mp h with h | h
    · subst h
      exact le_trans (le_max_right x y) (le_foldl_max_init xs (max x y))
    · exact ih (max x a) y h

theorem le_listMax? {l : List ℚ} {m : ℚ} (h : listMax? l = some m) :
    ∀ x ∈ l, x ≤ m := by
  match l with
  | [] => cases h
  | a :: xs =>
    intro x hx
    have hm : m = xs.foldl max a := by
      simpa [listMax?] using h.symm
    rcases List.mem_cons.mp hx with hx | hx
    · exact hm ▸ hx ▸ le_foldl_max_init xs a
    · exact hm ▸ le_foldl_max_mem xs a x hx

theorem roundRat_toNat_le (t : ℚ) (N : ℕ) (ht1 : t < 1) :
    (roundRat (t * N)).toNat ≤ N := by
  have hN : (0 : ℚ) ≤ (N : ℚ) := by positivity
  have h1 : t * N ≤ N := by
    calc t * N ≤ 1 * N := mul_le_mul_of_nonneg_right (le_of_lt ht1) hN
    _ = N := one_mul _
  have h3 : roundRat (t * N) < (N : ℤ) + 1 := by
    unfold roundRat
    refine Int.floor_lt.mpr ?_
    push_cast
    linarith
  omega

theorem getField_setField_of_some : ∀ (r : Record) (f : String) (v w : Value),
    getField f r = some w → getField f (setField f v r) = some v := by
  intro r
  induction r with
  | nil => intro f v w h; cases h
  | cons p r ih =>
    intro f v w h
    obtain ⟨g, u⟩ := p
    by_cases hg : g = f
    · simp [getField, setField, hg]
    · simp only [getField, setField, if_neg hg] at h ⊢
      exact ih f v w h

theorem mem_presentNums {R : List Record} {f : String} {r : Record} {v : ℚ}
    (hr : r ∈ R) (hv : (getField f r).bind Value.asNum? = some v) :
    v ∈ presentNums R f :=
  List.mem_filterMap.mpr ⟨r, hr, hv⟩

/-- C2: on the notebook's five-record example, `validate` with the
outlier predicate `age > 100 or age < 0` reports absent counts
email = 1 and age = 1, flags exactly the two records with age 120
(indices 3 and 4) as outliers, and reports a single duplicate group,
the two identical Emily Davis records (indices 3 and 4). -/
theorem validate_example :
    (validate exampleData "age" agePred).map
      (fun rep => (rep.absent "email", rep.absent "age", rep.outliers, rep.duplicates)) =
      .ok (1, 1, [3, 4], [[3, 4]]) := by
  rfl

/-- C5: `deduplicate` keeps the first record of every group of
full-field-equal records and removes the later copies (the recursive
equation), only removes records (the result is a sublist, so relative
order is preserved), keeps exactly the original set of record values,
leaves no duplicates, and on the example recordset drops one of the two
identical Emily Davis rows, yielding 4 records. -/
theorem deduplicate_spec :
    (∀ (x : Record) (xs : List Record),
      deduplicate (x :: xs) = x :: deduplicate (xs.filter (fun a => decide (a ≠ x)))) ∧
    (∀ R : List Record, (deduplicate R).Sublist R) ∧
    (∀ (R : List Record) (r : Record), r ∈ deduplicate R ↔ r ∈ R) ∧
    (∀ R : List Record, (deduplicate R).Nodup) ∧
    deduplicate exampleData = exampleCleaned ∧ exampleCleaned.length = 4 := by
  refine ⟨deduplicate_cons, fun R => dedupAux_sublist R [], fun R r => ?_,
    fun R => nodup_dedupAux R [], by rfl, by rfl⟩
  rw [deduplicate, mem_dedupAux]
  simp

/-- C9: `deduplicate` is idempotent: applying it to an already
deduplicated recordset changes nothing. -/
theorem deduplicate_idem : ∀ R : List Record,
    deduplicate (deduplicate R) = deduplicate R := by
  intro R
  exact dedupAux_eq_self (deduplicate R) [] (nodup_dedupAux R []) (by simp)

/-- C4: `fillMissing` with the median strategy leaves no absent value in
the filled field, replaces exactly the absent entries with the median of
the present values (middle of the sorted present values, the two central
values averaged for even counts), leaves all other records unchanged,
and on the notebook's deduplicated table (present ages 28, 22, 120,
median 28) replaces the absent age with 28. -/
theorem fillMissing_median_complete (R : List Record) (f : String) (R' : List Record)
    (h : fillMissing R f = .ok R') :
    (∀ r' ∈ R', getField f r' ≠ some Value.absent) ∧
    (∀ (i : Nat) (r : Record), R.get? i = some r → getField f r = some Value.absent →
      R'.get? i = some (setField f (.real (median (presentNums R f))) r) ∧
      getField f (setField f (.real (median (presentNums R f))) r) =
        some (.real (median (presentNums R f)))) ∧
    (∀ (i : Nat) (r : Record), R.get? i = some r → getField f r ≠ some Value.absent →
      R'.get? i = some r) ∧
    fillMissing exampleCleaned "age" = .ok exampleFilled ∧
    median (presentNums exampleCleaned "age") = 28 := by
  have hR' : R' = R.map (fun r =>
      if getField f r = some Value.absent
      then setField f (.real (median (presentNums R f))) r else r) := by
    by_cases hps : (presentNums R f).isEmpty
    · rw [fillMissing, if_pos hps] at h
      cases h
    · rw [fillMissing, if_neg hps] at h
      cases h
      rfl
  subst hR'
  refine ⟨?_, ?_, ?_, by rfl, by rfl⟩
  · intro r' hr'
    rcases List.mem_map.mp hr' with ⟨r, _, rfl⟩
    by_cases habs : getField f r = some Value.absent
    · rw [if_pos habs,
        getField_setField_of_some r f (.real (median (presentNums R f))) _ habs]
      intro hc
      cases hc
    · rw [if_neg habs]
      exact habs
  · intro i r hi habs
    rw [List.get?_map, hi]
    refine ⟨by simp only [Option.map_some', if_pos habs], ?_⟩
    exact getField_setField_of_some r f _ _ habs
  · intro i r hi habs
    rw [List.get?_map, hi]
    simp only [Option.map_some', if_neg habs]

/-- C4 witness: at the notebook's deduplicated table, the filled Jane
Smith record no longer has an absent age. -/
theorem fillMissing_median_complete_witness :
    getField "age" [("user_id", Value.int 2), ("name", Value.text "Jane Smith"),
      ("email", Value.text "jane.smith@example.com"), ("age", Value.real 28)] ≠
      some Value.absent :=
  (fillMissing_median_complete exampleCleaned "age" exampleFilled rfl).1 _
    (by rw [exampleFilled]; exact List.mem_cons_of_mem _ (List.mem_cons_self _ _))

/-- C7: evidence that the preparation step changes the recordset it is
given: on the notebook's deduplicated table, the recordset produced by
the median fill differs from the input recordset, so the notebook's
in-place `fillna(..., inplace=True)` necessarily mutates the recordset
passed to it rather than leaving it unchanged. -/
theorem fillMissing_output_differs :
    fillMissing exampleCleaned "age" = .ok exampleFilled ∧
    exampleFilled ≠ exampleCleaned := by
  exact ⟨rfl, by decide⟩

/-- C3: min-max `scale` fails with `degenerateRange` whenever the
minimum of the field's present values equals their maximum, and since it
fails by returning the bare error, no output recordset is produced. -/
theorem scale_degenerate (R : List Record) (f : String) (m : ℚ)
    (hmn : listMin? (presentNums R f) = some m)
    (hmx : listMax? (presentNums R f) = some m) :
    scale R f = .error PipeError.degenerateRange := by
  unfold scale
  rw [hmn, hmx]
  simp

/-- Recordset whose field `a` holds the same value 5 in both records, so
its min-max range is degenerate. -/
def degData : List Record := [[("a", Value.real 5)], [("a", Value.real 5)]]

/-- C3 witness: scaling the constant field `a` of `degData` fails with
`degenerateRange`. -/
theorem scale_degenerate_witness :
    scale degData "a" = .error PipeError.degenerateRange :=
  scale_degenerate degData "a" 5 rfl rfl

/-- C6: when the present values of the field have maximum strictly above
minimum, min-max `scale` succeeds, every scaled value it produces lies
in [0, 1], a record holding the minimum value is scaled to 0 and a
record holding the maximum is scaled to 1. -/
theorem scale_range (R : List Record) (f : String) (mn mx : ℚ)
    (hmn : listMin? (presentNums R f) = some mn)
    (hmx : listMax? (presentNums R f) = some mx)
    (hlt : mn < mx) :
    scale R f = .ok (R.map (scaleRecord f mn mx), ⟨mn, mx⟩) ∧
    ∀ r ∈ R, ∀ v : ℚ, (getField f r).bind Value.asNum? = some v →
      getField (f ++ "_scaled") (scaleRecord f mn mx r) =
        some (.real ((v - mn) / (mx - mn))) ∧
      0 ≤ (v - mn) / (mx - mn) ∧ (v - mn) / (mx - mn) ≤ 1 ∧
      (v = mn → (v - mn) / (mx - mn) = 0) ∧
      (v = mx → (v - mn) / (mx - mn) = 1) := by
  have hd : (0 : ℚ) < mx - mn := by linarith
  constructor
  · unfold scale
    rw [hmn, hmx]
    exact if_neg (ne_of_lt hlt)
  · intro r hr v hv
    have hvmem : v ∈ presentNums R f := mem_presentNums hr hv
    have h1 : mn ≤ v := listMin?_le hmn v hvmem
    have h2 : v ≤ mx := le_listMax? hmx v hvmem
    refine ⟨?_, ?_, ?_, ?_, ?_⟩
    · unfold scaleRecord
      rw [hv]
      simp [getField]
    · exact div_nonneg (by linarith) (le_of_lt hd)
    · rw [div_le_one hd]
      linarith
    · intro hveq
      rw [hveq, sub_self, zero_div]
    · intro hveq
      rw [hveq, div_self (ne_of_gt hd)]

/-- C6 witness: scaling the ages of the filled table (minimum 22,
maximum 120) succeeds and scales the Sam Johnson age 22 to 0. -/
theorem scale_range_witness :
    scale exampleFilled "age" =
      .ok (exampleFilled.map (scaleRecord "age" 22 120), ⟨22, 120⟩) ∧
    (22 - 22 : ℚ) / (120 - 22) = 0 := by
  have h := scale_range exampleFilled "age" 22 120 rfl rfl (by norm_num)
  refine ⟨h.1, ?_⟩
  refine (h.2 (exampleFilled.getD 2 []) ?_ 22 ?_).2.2.2.1 rfl
  · rw [exampleFilled]
    exact List.mem_cons_of_mem _ (List.mem_cons_of_mem _ (List.mem_cons_self _ _))
  · rfl

/-- C1 (amended): for a recordset with at least 2 records and a fraction
strictly between 0 and 1, `split` succeeds with a pair whose union as a
set of records equals the input, whose test partition has exactly
`round(t * N)` records and whose sizes add up to `N`; the two partitions
are disjoint provided the recordset has no duplicate records, and each
partition is nonempty provided `round(t * N)` is strictly between 0
and `N`. -/
theorem split_partition_laws (R : List Record) (t : ℚ) (seed : Nat)
    (h2 : 2 ≤ R.length) (ht0 : 0 < t) (ht1 : t < 1) :
    ∃ train test, split R t seed = .ok (train, test) ∧
      (∀ r : Record, r ∈ R ↔ (r ∈ train ∨ r ∈ test)) ∧
      test.length = (roundRat (t * R.length)).toNat ∧
      train.length + test.length = R.length ∧
      (R.Nodup → ∀ r ∈ test, r ∉ train) ∧
      (0 < (roundRat (t * R.length)).toNat → test ≠ []) ∧
      ((roundRat (t * R.length)).toNat < R.length → train ≠ []) := by
  have hperm : (seededShuffle seed R).Perm R := seededShuffle_perm seed R
  have hlen : (seededShuffle seed R).length = R.length := hperm.length_eq
  have hkN : (roundRat (t * R.length)).toNat ≤ R.length :=
    roundRat_toNat_le t R.length ht1
  refine ⟨(seededShuffle seed R).drop (roundRat (t * R.length)).toNat,
    (seededShuffle seed R).take (roundRat (t * R.length)).toNat, ?_, ?_, ?_, ?_, ?_, ?_, ?_⟩
  · unfold split
    rw [if_neg (by omega), if_neg (by push_neg; exact ⟨ht0, ht1⟩)]
  · intro r
    rw [← hperm.mem_iff (a := r)]
    conv_lhs => rw [← List.take_append_drop (roundRat (t * R.length)).toNat
      (seededShuffle seed R)]
    rw [List.mem_append]
    exact Or.comm
  · rw [List.length_take, hlen]
    exact Nat.min_eq_left hkN
  · rw [List.length_take, List.length_drop, hlen]
    omega
  · intro hnd r hrtest hrtrain
    exact List.disjoint_take_drop (hperm.symm.nodup hnd) (le_refl _) hrtest hrtrain
  · intro hk
    rw [← List.length_pos, List.length_take, hlen]
    omega
  · intro hk
    rw [← List.length_pos, List.length_drop, hlen]
    omega

section ConcreteEvaluation

attribute [local semireducible] Rat.add Rat.mul Rat.sub Rat.inv

/-- C1 witness: splitting the deduplicated example table (4 records)
with fraction 1/5 gives a test partition of round(4/5) = 1 record. -/
theorem split_partition_laws_witness :
    (roundRat ((1 / 5 : ℚ) * exampleCleaned.length)).toNat = 1 ∧
    (∃ train test, split exampleCleaned (1 / 5) 42 = .ok (train, test) ∧
      (∀ r : Record, r ∈ exampleCleaned ↔ (r ∈ train ∨ r ∈ test)) ∧
      test.length = (roundRat ((1 / 5 : ℚ) * exampleCleaned.length)).toNat ∧
      train.length + test.length = exampleCleaned.length ∧
      (exampleCleaned.Nodup → ∀ r ∈ test, r ∉ train) ∧
      (0 < (roundRat ((1 / 5 : ℚ) * exampleCleaned.length)).toNat → test ≠ []) ∧
      ((roundRat ((1 / 5 : ℚ) * exampleCleaned.length)).toNat <
        exampleCleaned.length → train ≠ [])) :=
  ⟨by decide,
   split_partition_laws exampleCleaned (1 / 5) 42 (by decide) (by norm_num) (by norm_num)⟩

/-- Recordset of two distinct one-field records. -/
def twoRecords : List Record := [[("a", Value.real 1)], [("a", Value.real 2)]]

/-- Recordset consisting of the same one-field record twice. -/
def dupPair : List Record := [[("a", Value.real 7)], [("a", Value.real 7)]]

/-- C1 counterexample: the claim's inputs are legal (2 records, fraction
in (0, 1)) yet on `twoRecords` with fraction 1/10 the test partition is
empty — round(1/10 * 2) = 0 — contradicting "each of which contains at
least 1 record"; and on the duplicate pair with fraction 1/2 the same
record lands in both partitions, so their intersection as a set of
records is not empty. -/
theorem split_claim_counterexample :
    2 ≤ twoRecords.length ∧ (0 : ℚ) < 1 / 10 ∧ (1 / 10 : ℚ) < 1 ∧
    split twoRecords (1 / 10) 0 =
      .ok ([[("a", Value.real 1)], [("a", Value.real 2)]], []) ∧
    2 ≤ dupPair.length ∧ (0 : ℚ) < 1 / 2 ∧ (1 / 2 : ℚ) < 1 ∧
    split dupPair (1 / 2) 0 =
      .ok ([[("a", Value.real 7)]], [[("a", Value.real 7)]]) :=
  ⟨by decide, by norm_num, by norm_num, rfl, by decide, by norm_num, by norm_num, rfl⟩

end ConcreteEvaluation

/-- C8: `split` is deterministic in its arguments: identical recordset,
fraction and seed yield identical partitions. -/
theorem split_deterministic (R₁ R₂ : List Record) (t₁ t₂ : ℚ) (s₁ s₂ : Nat)
    (hR : R₁ = R₂) (ht : t₁ = t₂) (hs : s₁ = s₂) :
    split R₁ t₁ s₁ = split R₂ t₂ s₂ := by
  rw [hR, ht, hs]

/-- C8 witness: two calls of `split` on the deduplicated example table
with fraction 1/5 and seed 42 agree. -/
theorem split_deterministic_witness :
    split exampleCleaned (1 / 5) 42 = split exampleCleaned (1 / 5) 42 :=
  split_deterministic exampleCleaned exampleCleaned (1 / 5) (1 / 5) 42 42 rfl rfl rfl

/-- C10: a record whose value in the checked field is absent is never
flagged as an outlier by `validate`, whatever the range predicate: the
absent marker has no numeric view, so the outlier filter rejects it. -/
theorem absent_not_outlier (R : List Record) (f : String) (pred : ℚ → Bool)
    (rep : ValidationReport) (i : Nat) (r : Record)
    (hval : validate R f pred = .ok rep)
    (hi : R.get? i = some r) (habs : getField f r = some Value.absent) :
    i ∉ rep.outliers := by
  have houtliers : rep.outliers = outlierIndices R f pred := by
    match R, hi with
    | r0 :: rs, hi =>
      rw [validate] at hval
      by_cases hall : rs.all (fun r => decide (schemaOf r = schemaOf r0))
      · rw [if_pos hall] at hval
        cases hval
        rfl
      · rw [if_neg hall] at hval
        cases hval
  rw [houtliers]
  intro hmem
  have hcond := (List.mem_filter.mp hmem).2
  have hi' : R[i]? = some r := by
    rw [← List.get?_eq_getElem?]
    exact hi
  simp [hi', habs, Value.asNum?] at hcond

/-- C10 witness: in the notebook's example, the Jane Smith record
(index 1, absent age) is not flagged by the outlier predicate
`age > 100 or age < 0`. -/
theorem absent_not_outlier_witness :
    1 ∉ (ValidationReport.mk (fun g => absentCount exampleData g)
      (outlierIndices exampleData "age" agePred) (duplicateGroups exampleData)).outliers :=
  absent_not_outlier exampleData "age" agePred _ 1
    [("user_id", Value.int 2), ("name", Value.text "Jane Smith"),
      ("email", Value.text "jane.smith@example.com"), ("age", Value.absent)]
    rfl rfl rfl

end Pipeline
